import Mathlib

/-!
# GPU selection in `Raytracer/main.cpp`

A shallow embedding of `GlfwVulcanRenderer::scorePhysicalDevice` and
`GlfwVulcanRenderer::enumeratePhysicalDevices`, and the properties of the
device selector proved (or refuted) on it.

Modelling conventions.

* The answers of the Vulkan driver are inputs: a `DriverDevice` holds what the
  `vkGet...`/`vkEnumerate...` queries return for one device handle, including
  the answer of `vkGetPhysicalDeviceSurfaceSupportKHR` for every family index.
* `float _score` only ever holds `0`, `1000` or `2000`, all exact in binary32,
  and `(float)supportSwapChain` is `0` or `1`; scores are modelled in `Nat`.
* `int32_t` indices are modelled in `Int`; the family index stored into them is
  a `uint32_t` below the number of queue families of a device, a count far
  below `2^31`, so the store keeps its value.
* `std::sort` is the C++ standard library's routine; it enters as a parameter
  together with the contract the standard gives for it. For concrete runs the
  implementation of libstdc++ (`bits/stl_algo.h`, GCC 12) is embedded as
  `std_sort`, on a vector held as a list and iterators held as positions.
-/

namespace GlfwVulcanRenderer

/-! ## Vulkan data -/

/-- The Vulkan enumeration `VkPhysicalDeviceType`. -/
inductive VkPhysicalDeviceType where
  | VK_PHYSICAL_DEVICE_TYPE_OTHER
  | VK_PHYSICAL_DEVICE_TYPE_INTEGRATED_GPU
  | VK_PHYSICAL_DEVICE_TYPE_DISCRETE_GPU
  | VK_PHYSICAL_DEVICE_TYPE_VIRTUAL_GPU
  | VK_PHYSICAL_DEVICE_TYPE_CPU
  deriving DecidableEq, Repr

open VkPhysicalDeviceType

/-- The fields of `VkPhysicalDeviceProperties` the program reads. -/
structure VkPhysicalDeviceProperties where
  deviceName : String
  deviceType : VkPhysicalDeviceType
  deriving DecidableEq, Repr

/-- The feature flags `VkPhysicalDeviceFeatures`, a record of booleans. -/
structure VkPhysicalDeviceFeatures where
  flags : List Bool
  deriving DecidableEq, Repr

/-- One entry of the device extension list. -/
structure VkExtensionProperties where
  extensionName : String
  specVersion : Nat
  deriving DecidableEq, Repr

/-- One queue family: its operation-flag mask and its queue count. -/
structure VkQueueFamilyProperties where
  queueFlags : Nat
  queueCount : Nat
  deriving DecidableEq, Repr

/-- The flag bit `VK_QUEUE_GRAPHICS_BIT` of the Vulkan headers. -/
def VK_QUEUE_GRAPHICS_BIT : Nat := 0x00000001

/-- The flag bit `VK_QUEUE_COMPUTE_BIT` of the Vulkan headers. -/
def VK_QUEUE_COMPUTE_BIT : Nat := 0x00000002

/-- The flag bit `VK_QUEUE_TRANSFER_BIT` of the Vulkan headers. -/
def VK_QUEUE_TRANSFER_BIT : Nat := 0x00000004

/-- The name `VK_KHR_SWAPCHAIN_EXTENSION_NAME` of the Vulkan headers. -/
def VK_KHR_SWAPCHAIN_EXTENSION_NAME : String := "VK_KHR_swapchain"

/-- The C routine `strcmp` on the characters of two buffers: the buffers are
read in step up to the first NUL (the end of a buffer counts as NUL); the
result is zero when no difference is met, otherwise the difference of the first
pair of characters that differ. -/
def strcmpChars : List Char → List Char → Int
  | [], [] => 0
  | [], b :: _ => 0 - (b.toNat : Int)
  | a :: _, [] => (a.toNat : Int)
  | a :: as, b :: bs =>
    if a = b then (if a.toNat = 0 then 0 else strcmpChars as bs)
    else (a.toNat : Int) - (b.toNat : Int)

/-- The C routine `strcmp` on two character buffers. -/
def strcmp (s t : String) : Int := strcmpChars s.data t.data

/-- The C string a character buffer holds: its characters before the first
NUL. -/
def cString (buffer : String) : List Char :=
  buffer.data.takeWhile (fun c => decide (c.toNat ≠ 0))

/-! ## The candidate record -/

/-- The record `GlfwVulcanRenderer::PhysicalDevice`. -/
structure PhysicalDevice where
  _device : Nat
  _properties : VkPhysicalDeviceProperties
  _features : VkPhysicalDeviceFeatures
  _extensions : List VkExtensionProperties
  _queueFamilies : List VkQueueFamilyProperties
  _graphicsSupportIndex : Int
  _presentationSupportIndex : Int
  _score : Nat
  deriving DecidableEq, Repr

/-! ## Scoring -/

/-- The loop of `scorePhysicalDevice` that looks for the swapchain extension:
it sets the flag and leaves at the first entry whose name compares equal. -/
def supportSwapChain : List VkExtensionProperties → Bool
  | [] => false
  | extension :: rest =>
    if strcmp extension.extensionName VK_KHR_SWAPCHAIN_EXTENSION_NAME = 0 then true
    else supportSwapChain rest

/-- The method `GlfwVulcanRenderer::scorePhysicalDevice`. -/
def scorePhysicalDevice (_device : PhysicalDevice) : Nat :=
  let score : Nat :=
    if _device._properties.deviceType = VK_PHYSICAL_DEVICE_TYPE_DISCRETE_GPU then 2000
    else 1000
  score * (if supportSwapChain _device._extensions then 1 else 0)

/-! ## What the driver reports -/

/-- The answers of the Vulkan driver for one physical device handle and the
renderer's surface: `vkGetPhysicalDeviceProperties`,
`vkGetPhysicalDeviceFeatures`, `vkEnumerateDeviceExtensionProperties`,
`vkGetPhysicalDeviceQueueFamilyProperties`, and, per queue family index,
`vkGetPhysicalDeviceSurfaceSupportKHR` for `m_surface`. -/
structure DriverDevice where
  handle : Nat
  properties : VkPhysicalDeviceProperties
  features : VkPhysicalDeviceFeatures
  extensions : List VkExtensionProperties
  queueFamilies : List VkQueueFamilyProperties
  surfaceSupport : Nat → Bool

/-! ## The queue family scan -/

/-- The loop "find valid queue family indices" of `enumeratePhysicalDevices`,
entered at family index `i` with the families from `i` on still to visit and
the two index fields holding `g` and `p`. Each visited family with the graphics
bit stores `i` into the graphics field, each family the driver reports as
presentable stores `i` into the presentation field, and the loop is left as
soon as both fields are non-negative. -/
def findQueueFamilyIndices (presentSupport : Nat → Bool) :
    List VkQueueFamilyProperties → Nat → Int → Int → Int × Int
  | [], _, g, p => (g, p)
  | queueFamily :: rest, i, g, p =>
    let g := if queueFamily.queueFlags &&& VK_QUEUE_GRAPHICS_BIT ≠ 0 then (i : Int) else g
    let p := if presentSupport i = true then (i : Int) else p
    if 0 ≤ g ∧ 0 ≤ p then (g, p)
    else findQueueFamilyIndices presentSupport rest (i + 1) g p

/-- The body of the loop over device handles in `enumeratePhysicalDevices`: the
record built for one handle, its queries filled in, the two family indices
found starting from `-1`, and the score stored last. -/
def probePhysicalDevice (d : DriverDevice) : PhysicalDevice :=
  let indices := findQueueFamilyIndices d.surfaceSupport d.queueFamilies 0 (-1) (-1)
  let device : PhysicalDevice :=
    { _device := d.handle
      _properties := d.properties
      _features := d.features
      _extensions := d.extensions
      _queueFamilies := d.queueFamilies
      _graphicsSupportIndex := indices.1
      _presentationSupportIndex := indices.2
      _score := 0 }
  { device with _score := scorePhysicalDevice device }

/-! ## Sorting -/

/-- The comparison passed to `std::sort`: `a._score > b._score`. -/
def bestFirst (a b : PhysicalDevice) : Bool := decide (a._score > b._score)

/-- The requirement `std::sort` puts on its comparison: a strict weak
ordering. -/
structure StrictWeakOrdering {α : Type} (comp : α → α → Bool) : Prop where
  irrefl : ∀ a, comp a a = false
  trans : ∀ a b c, comp a b = true → comp b c = true → comp a c = true
  incomp_trans : ∀ a b c, comp a b = false → comp b a = false →
    comp b c = false → comp c b = false → comp a c = false ∧ comp c a = false

/-- The guarantee the C++ standard gives for `std::sort(first, last, comp)`
when `comp` is a strict weak ordering: the range is rearranged, and afterwards
no element compares before an element placed ahead of it. The relative order of
equivalent elements is not part of the guarantee. -/
structure StdSortContract {α : Type} (sort : (α → α → Bool) → List α → List α) : Prop where
  perm : ∀ comp l, StrictWeakOrdering comp → (sort comp l).Perm l
  sorted : ∀ comp l, StrictWeakOrdering comp →
    (sort comp l).Pairwise (fun a b => comp b a = false)

/-- Insertion of one element in front of the first element that does not
compare before it. -/
def insertSorted {α : Type} (comp : α → α → Bool) (a : α) : List α → List α
  | [] => [a]
  | b :: l => if comp b a then b :: insertSorted comp a l else a :: b :: l

/-- An insertion sort, one admissible behaviour of `std::sort`; it keeps
equivalent elements in their input order. -/
def insertionSort {α : Type} (comp : α → α → Bool) : List α → List α
  | [] => []
  | a :: l => insertSorted comp a (insertionSort comp l)

/-! ## The `std::sort` of libstdc++

The routines of `bits/stl_algo.h` and `bits/stl_heap.h` behind
`std::sort(first, last, comp)`. The vector is a list, an iterator is a position
in it, and a routine that writes through iterators returns the new vector.
Reading or writing outside the vector has no defined behaviour in C++ and gives
`none` here, as does a loop that outlives its fuel. -/

/-- A write `*(v.begin() + i) = x`. -/
def store {α : Type} (v : List α) (i : Nat) (x : α) : Option (List α) :=
  if i < v.length then some (v.set i x) else none

/-- The routine `std::iter_swap`. -/
def iter_swap {α : Type} (v : List α) (i j : Nat) : Option (List α) := do
  let a ← v[i]?
  let b ← v[j]?
  pure ((v.set i b).set j a)

/-- The routine `std::__move_median_to_first`: the median of the elements at
`a`, `b` and `c` is swapped to `result`. -/
def move_median_to_first {α : Type} (comp : α → α → Bool) (v : List α) (result a b c : Nat) :
    Option (List α) := do
  let xa ← v[a]?
  let xb ← v[b]?
  let xc ← v[c]?
  if comp xa xb then
    if comp xb xc then iter_swap v result b
    else if comp xa xc then iter_swap v result c
    else iter_swap v result a
  else if comp xa xc then iter_swap v result a
  else if comp xb xc then iter_swap v result c
  else iter_swap v result b

/-- The inner loop `while (comp(first, pivot)) ++first` of
`std::__unguarded_partition`. -/
def partition_scan_up {α : Type} (comp : α → α → Bool) (v : List α) (pivot : Nat) :
    Nat → Nat → Option Nat
  | 0, _ => none
  | fuel + 1, first => do
    let x ← v[first]?
    let p ← v[pivot]?
    if comp x p then partition_scan_up comp v pivot fuel (first + 1) else pure first

/-- The inner loop `while (comp(pivot, last)) --last` of
`std::__unguarded_partition`. -/
def partition_scan_down {α : Type} (comp : α → α → Bool) (v : List α) (pivot : Nat) :
    Nat → Nat → Option Nat
  | 0, _ => none
  | fuel + 1, last => do
    let x ← v[last]?
    let p ← v[pivot]?
    if comp p x then (if last = 0 then none else partition_scan_down comp v pivot fuel (last - 1))
    else pure last

/-- The routine `std::__unguarded_partition`: the vector after the swaps and
the position returned. -/
def unguarded_partition {α : Type} (comp : α → α → Bool) (pivot : Nat) :
    Nat → List α → Nat → Nat → Option (List α × Nat)
  | 0, _, _, _ => none
  | fuel + 1, v, first, last => do
    let first ← partition_scan_up comp v pivot (v.length + 1) first
    if last = 0 then none
    else
      let last ← partition_scan_down comp v pivot (v.length + 1) (last - 1)
      if first < last then
        let v ← iter_swap v first last
        unguarded_partition comp pivot fuel v (first + 1) last
      else pure (v, first)

/-- The routine `std::__unguarded_partition_pivot`. -/
def unguarded_partition_pivot {α : Type} (comp : α → α → Bool) (v : List α) (first last : Nat) :
    Option (List α × Nat) := do
  let mid := first + (last - first) / 2
  let v ← move_median_to_first comp v first (first + 1) mid (last - 1)
  unguarded_partition comp first (v.length + 1) v (first + 1) last

/-- The routine `std::__push_heap`. -/
def push_heap {α : Type} (comp : α → α → Bool) (first topIndex : Nat) (value : α) :
    Nat → List α → Nat → Option (List α)
  | 0, _, _ => none
  | fuel + 1, v, holeIndex =>
    let parent := (holeIndex - 1) / 2
    if holeIndex > topIndex then do
      let xp ← v[first + parent]?
      if comp xp value then do
        let v ← store v (first + holeIndex) xp
        push_heap comp first topIndex value fuel v parent
      else store v (first + holeIndex) value
    else store v (first + holeIndex) value

/-- The loop `while (secondChild < (len - 1) / 2)` of `std::__adjust_heap`: the
vector, the hole and the second child on leaving it. -/
def adjust_heap_loop {α : Type} (comp : α → α → Bool) (first len : Nat) :
    Nat → List α → Nat → Nat → Option (List α × Nat × Nat)
  | 0, _, _, _ => none
  | fuel + 1, v, holeIndex, secondChild =>
    if secondChild < (len - 1) / 2 then do
      let secondChild := 2 * (secondChild + 1)
      let a ← v[first + secondChild]?
      let b ← v[first + (secondChild - 1)]?
      let secondChild := if comp a b then secondChild - 1 else secondChild
      let x ← v[first + secondChild]?
      let v ← store v (first + holeIndex) x
      adjust_heap_loop comp first len fuel v secondChild secondChild
    else pure (v, holeIndex, secondChild)

/-- The routine `std::__adjust_heap`; `(len - 2) / 2` is a signed division. -/
def adjust_heap {α : Type} (comp : α → α → Bool) (v : List α) (first holeIndex len : Nat)
    (value : α) : Option (List α) := do
  let topIndex := holeIndex
  let (v, holeIndex, secondChild) ←
    adjust_heap_loop comp first len (len + 1) v holeIndex holeIndex
  let (v, holeIndex) ←
    if len % 2 = 0 ∧ (secondChild : Int) = Int.tdiv ((len : Int) - 2) 2 then do
      let secondChild := 2 * (secondChild + 1)
      let x ← v[first + (secondChild - 1)]?
      let v ← store v (first + holeIndex) x
      pure (v, secondChild - 1)
    else pure (v, holeIndex)
  push_heap comp first topIndex value (len + 1) v holeIndex

/-- The routine `std::__pop_heap`. -/
def pop_heap {α : Type} (comp : α → α → Bool) (v : List α) (first last result : Nat) :
    Option (List α) := do
  let value ← v[result]?
  let x ← v[first]?
  let v ← store v result x
  adjust_heap comp v first 0 (last - first) value

/-- The loop of `std::__make_heap`, from `parent` down to 0. -/
def make_heap_loop {α : Type} (comp : α → α → Bool) (first len : Nat) :
    Nat → List α → Option (List α)
  | 0, v => do
    let value ← v[first]?
    adjust_heap comp v first 0 len value
  | parent + 1, v => do
    let value ← v[first + (parent + 1)]?
    let v ← adjust_heap comp v first (parent + 1) len value
    make_heap_loop comp first len parent v

/-- The routine `std::__make_heap`. -/
def make_heap {α : Type} (comp : α → α → Bool) (v : List α) (first last : Nat) :
    Option (List α) :=
  if last - first < 2 then pure v
  else make_heap_loop comp first (last - first) ((last - first - 2) / 2) v

/-- The loop of `std::__heap_select` from position `i`, with `n` positions left
before `last`. -/
def heap_select_loop {α : Type} (comp : α → α → Bool) (first middle : Nat) :
    Nat → List α → Nat → Option (List α)
  | 0, v, _ => pure v
  | n + 1, v, i => do
    let xi ← v[i]?
    let xf ← v[first]?
    let v ← if comp xi xf then pop_heap comp v first middle i else pure v
    heap_select_loop comp first middle n v (i + 1)

/-- The routine `std::__heap_select`. -/
def heap_select {α : Type} (comp : α → α → Bool) (v : List α) (first middle last : Nat) :
    Option (List α) := do
  let v ← make_heap comp v first middle
  heap_select_loop comp first middle (last - middle) v middle

/-- The loop of `std::__sort_heap`, with at most `n` turns left. -/
def sort_heap_loop {α : Type} (comp : α → α → Bool) (first : Nat) :
    Nat → List α → Nat → Option (List α)
  | 0, v, _ => pure v
  | n + 1, v, last =>
    if last - first > 1 then do
      let v ← pop_heap comp v first (last - 1) (last - 1)
      sort_heap_loop comp first n v (last - 1)
    else pure v

/-- The routine `std::__sort_heap`. -/
def sort_heap {α : Type} (comp : α → α → Bool) (v : List α) (first last : Nat) :
    Option (List α) :=
  sort_heap_loop comp first (last - first) v last

/-- The routine `std::__partial_sort`. -/
def partial_sort {α : Type} (comp : α → α → Bool) (v : List α) (first middle last : Nat) :
    Option (List α) := do
  let v ← heap_select comp v first middle last
  sort_heap comp v first middle

/-- The constant `_S_threshold`. -/
def S_threshold : Nat := 16

/-- The routine `std::__introsort_loop`, by recursion on the depth limit, which
every turn of its loop and every nested call decrease. -/
def introsort_loop {α : Type} (comp : α → α → Bool) :
    Nat → List α → Nat → Nat → Option (List α)
  | depth_limit, v, first, last =>
    if last - first > S_threshold then
      match depth_limit with
      | 0 => partial_sort comp v first last last
      | depth_limit + 1 => do
        let (v, cut) ← unguarded_partition_pivot comp v first last
        let v ← introsort_loop comp depth_limit v cut last
        introsort_loop comp depth_limit v first cut
    else pure v

/-- The routine `std::__unguarded_linear_insert` for the value `val` taken from
position `last`. -/
def unguarded_linear_insert {α : Type} (comp : α → α → Bool) (val : α) :
    Nat → List α → Nat → Option (List α)
  | 0, _, _ => none
  | fuel + 1, v, last =>
    if last = 0 then none
    else do
      let x ← v[last - 1]?
      if comp val x then unguarded_linear_insert comp val fuel (v.set last x) (last - 1)
      else pure (v.set last val)

/-- The first branch of the loop body of `std::__insertion_sort`: the elements
of `[first, i)` move one place up and `val` is stored at `first`. -/
def move_backward_insert {α : Type} (v : List α) (first i : Nat) (val : α) : List α :=
  v.take first ++ val :: ((v.drop first).take (i - first) ++ v.drop (i + 1))

/-- The loop of `std::__insertion_sort` from position `i`, with `n` positions
left before `last`. -/
def insertion_sort_loop {α : Type} (comp : α → α → Bool) (first : Nat) :
    Nat → List α → Nat → Option (List α)
  | 0, v, _ => pure v
  | n + 1, v, i => do
    let xi ← v[i]?
    let xf ← v[first]?
    let v ← if comp xi xf then pure (move_backward_insert v first i xi)
      else unguarded_linear_insert comp xi (v.length + 1) v i
    insertion_sort_loop comp first n v (i + 1)

/-- The routine `std::__insertion_sort`. -/
def insertion_sort {α : Type} (comp : α → α → Bool) (v : List α) (first last : Nat) :
    Option (List α) :=
  if first = last then pure v
  else insertion_sort_loop comp first (last - (first + 1)) v (first + 1)

/-- The routine `std::__unguarded_insertion_sort` from position `i`, with `n`
positions left before `last`. -/
def unguarded_insertion_sort {α : Type} (comp : α → α → Bool) :
    Nat → List α → Nat → Option (List α)
  | 0, v, _ => pure v
  | n + 1, v, i => do
    let xi ← v[i]?
    let v ← unguarded_linear_insert comp xi (v.length + 1) v i
    unguarded_insertion_sort comp n v (i + 1)

/-- The routine `std::__final_insertion_sort`. -/
def final_insertion_sort {α : Type} (comp : α → α → Bool) (v : List α) (first last : Nat) :
    Option (List α) :=
  if last - first > S_threshold then do
    let v ← insertion_sort comp v first (first + S_threshold)
    unguarded_insertion_sort comp (last - (first + S_threshold)) v (first + S_threshold)
  else insertion_sort comp v first last

/-- The loop behind `std::__lg`. -/
def lg_loop : Nat → Nat → Nat
  | 0, _ => 0
  | fuel + 1, n => if 2 ≤ n then lg_loop fuel (n / 2) + 1 else 0

/-- The routine `std::__lg`: the binary logarithm, rounded down. -/
def lg (n : Nat) : Nat := lg_loop n n

/-- The routine `std::__sort` on the whole vector, which `std::sort` calls. -/
def std_sort {α : Type} (comp : α → α → Bool) (v : List α) : Option (List α) :=
  let first := 0
  let last := v.length
  if first = last then pure v
  else do
    let v ← introsort_loop comp (lg (last - first) * 2) v first last
    final_insertion_sort comp v first last

/-- The call `std::sort(v.begin(), v.end(), comp)` with libstdc++, as a map on
vectors; where `std_sort` gives no answer the vector is returned as it was. -/
def libstdcxxSort {α : Type} (comp : α → α → Bool) (v : List α) : List α :=
  (std_sort comp v).getD v

/-! ## Enumeration -/

/-- The message thrown when the driver reports no device. -/
def noDeviceFound : String := "Failed to find GPUs with Vulkan support!"

/-- The method `GlfwVulcanRenderer::enumeratePhysicalDevices`, as a function of
the device list the driver reports for `m_instance` and of the member
`m_physicalDevices` on entry. The result is the outcome (the thrown message or
a normal return) together with `m_physicalDevices` on exit. -/
def enumeratePhysicalDevices
    (sort : (PhysicalDevice → PhysicalDevice → Bool) → List PhysicalDevice → List PhysicalDevice)
    (devices : List DriverDevice) (m_physicalDevices : List PhysicalDevice) :
    Except String Unit × List PhysicalDevice :=
  let deviceCount := devices.length
  if deviceCount = 0 then
    (Except.error noDeviceFound, m_physicalDevices)
  else
    let filled := devices.foldl
      (fun acc deviceHandle => acc ++ [probePhysicalDevice deviceHandle]) m_physicalDevices
    (Except.ok (), sort bestFirst filled)

/-- The constructor's call: `enumeratePhysicalDevices` on the freshly
constructed renderer, whose `m_physicalDevices` is empty. -/
def enumerate
    (sort : (PhysicalDevice → PhysicalDevice → Bool) → List PhysicalDevice → List PhysicalDevice)
    (devices : List DriverDevice) : Except String Unit × List PhysicalDevice :=
  enumeratePhysicalDevices sort devices []

/-! ## Reference notions used in the statements -/

/-- Family `k` of the list exists and has the graphics bit in its flags. -/
def isGraphicsFamily (families : List VkQueueFamilyProperties) (k : Nat) : Bool :=
  match families[k]? with
  | some queueFamily => decide (queueFamily.queueFlags &&& VK_QUEUE_GRAPHICS_BIT ≠ 0)
  | none => false

/-- Family `k` of the device exists and the driver reports it presentable to
the surface. -/
def isPresentFamily (d : DriverDevice) (k : Nat) : Bool :=
  decide (k < d.queueFamilies.length) && d.surfaceSupport k

/-- The graphics family index found for a device. -/
def graphicsIndex (d : DriverDevice) : Int :=
  (probePhysicalDevice d)._graphicsSupportIndex

/-- The presentation family index found for a device. -/
def presentationIndex (d : DriverDevice) : Int :=
  (probePhysicalDevice d)._presentationSupportIndex

/-- The device lists an extension named `VK_KHR_swapchain`. -/
def hasSwapchainExtension (extensions : List VkExtensionProperties) : Prop :=
  ∃ e ∈ extensions, cString e.extensionName = "VK_KHR_swapchain".data

/-- The queue family scan over family indices `i, i + 1, ..., i + n - 1`, with
the two tests of the loop body given as predicates on the index. It is the
form of `findQueueFamilyIndices` the proofs work on. -/
def scanFrom (G P : Nat → Bool) : Nat → Nat → Int → Int → Int × Int
  | 0, _, g, p => (g, p)
  | n + 1, i, g, p =>
    let g := if G i = true then (i : Int) else g
    let p := if P i = true then (i : Int) else p
    if 0 ≤ g ∧ 0 ≤ p then (g, p)
    else scanFrom G P n (i + 1) g p

/-! ## Sample devices -/

/-- A queue family with the given flags and one queue. -/
def family (flags : Nat) : VkQueueFamilyProperties := ⟨flags, 1⟩

/-- The family list `[transfer-only, graphics, graphics+compute]`. -/
def sampleFamilies : List VkQueueFamilyProperties :=
  [family VK_QUEUE_TRANSFER_BIT, family VK_QUEUE_GRAPHICS_BIT,
   family (VK_QUEUE_GRAPHICS_BIT ||| VK_QUEUE_COMPUTE_BIT)]

/-- A sample driver answer with the given class, extension names, family flags
and list of presentable family indices. -/
def sampleDevice (handle : Nat) (deviceType : VkPhysicalDeviceType) (extensionNames : List String)
    (families : List VkQueueFamilyProperties) (presentable : List Nat) : DriverDevice :=
  { handle := handle
    properties := ⟨"gpu", deviceType⟩
    features := ⟨[]⟩
    extensions := extensionNames.map (fun n => ⟨n, 1⟩)
    queueFamilies := families
    surfaceSupport := fun i => decide (i ∈ presentable) }

/-- A discrete candidate without the swapchain extension, with feature flags
set and the sample families. -/
def candidateWithoutSwapchain : PhysicalDevice :=
  { _device := 7
    _properties := ⟨"gpu", VK_PHYSICAL_DEVICE_TYPE_DISCRETE_GPU⟩
    _features := ⟨[true, false, true]⟩
    _extensions := [⟨"VK_KHR_maintenance1", 2⟩, ⟨"VK_KHR_swapchain_mutable_format", 1⟩]
    _queueFamilies := sampleFamilies
    _graphicsSupportIndex := 1
    _presentationSupportIndex := 2
    _score := 0 }

/-- A candidate of the given class that lists the swapchain extension. -/
def candidateWithSwapchain (deviceType : VkPhysicalDeviceType) : PhysicalDevice :=
  { _device := 7
    _properties := ⟨"gpu", deviceType⟩
    _features := ⟨[true, false, true]⟩
    _extensions := [⟨"VK_KHR_maintenance1", 2⟩, ⟨"VK_KHR_swapchain", 70⟩]
    _queueFamilies := sampleFamilies
    _graphicsSupportIndex := 1
    _presentationSupportIndex := 2
    _score := 0 }

/-- An integrated GPU with the swapchain extension (score 1000). -/
def integratedDevice : DriverDevice :=
  sampleDevice 1 VK_PHYSICAL_DEVICE_TYPE_INTEGRATED_GPU ["VK_KHR_swapchain"] sampleFamilies [2]

/-- A discrete GPU without the swapchain extension (score 0). -/
def discreteWithoutSwapchain : DriverDevice :=
  sampleDevice 2 VK_PHYSICAL_DEVICE_TYPE_DISCRETE_GPU ["VK_KHR_maintenance1"] sampleFamilies [0]

/-- A discrete GPU with the swapchain extension (score 2000). -/
def discreteDevice : DriverDevice :=
  sampleDevice 3 VK_PHYSICAL_DEVICE_TYPE_DISCRETE_GPU ["VK_KHR_swapchain"] sampleFamilies [1]

/-- A second integrated GPU with the swapchain extension (score 1000). -/
def secondIntegratedDevice : DriverDevice :=
  sampleDevice 4 VK_PHYSICAL_DEVICE_TYPE_INTEGRATED_GPU ["VK_KHR_swapchain"] sampleFamilies [2]

/-- A discrete GPU with the swapchain extension and no queue family at all. -/
def discreteWithoutFamilies : DriverDevice :=
  sampleDevice 5 VK_PHYSICAL_DEVICE_TYPE_DISCRETE_GPU ["VK_KHR_swapchain"] [] []

/-- The sample families, with only family 2 presentable. -/
def presentOnlyLast : DriverDevice :=
  sampleDevice 6 VK_PHYSICAL_DEVICE_TYPE_DISCRETE_GPU ["VK_KHR_swapchain"] sampleFamilies [2]

/-- Families `[transfer-only, graphics]`, both presentable. -/
def transferThenGraphics : DriverDevice :=
  sampleDevice 8 VK_PHYSICAL_DEVICE_TYPE_DISCRETE_GPU ["VK_KHR_swapchain"]
    [family VK_QUEUE_TRANSFER_BIT, family VK_QUEUE_GRAPHICS_BIT] [0, 1]

/-- Families `[graphics, graphics]`, both presentable. -/
def graphicsTwice : DriverDevice :=
  sampleDevice 8 VK_PHYSICAL_DEVICE_TYPE_DISCRETE_GPU ["VK_KHR_swapchain"]
    [family VK_QUEUE_GRAPHICS_BIT, family VK_QUEUE_GRAPHICS_BIT] [0, 1]

/-- Seventeen integrated GPUs with the swapchain extension, handles 1 to 17 in
enumeration order, all of score 1000. -/
def seventeenIntegrated : List DriverDevice :=
  (List.range 17).map (fun k =>
    sampleDevice (k + 1) VK_PHYSICAL_DEVICE_TYPE_INTEGRATED_GPU ["VK_KHR_swapchain"]
      sampleFamilies [2])

/-! ## The swapchain test and the score -/

theorem char_toNat_sub_ne_zero (a b : Char) (h : a ≠ b) : (a.toNat : Int) - (b.toNat : Int) ≠ 0 := by
  intro h0
  apply h
  have : a.toNat = b.toNat := by omega
  exact Char.ext (UInt32.ext this)

/-- The routine `strcmp` answers zero exactly when the two buffers hold the
same C string. -/
theorem strcmpChars_eq_zero_iff (x y : List Char) :
    strcmpChars x y = 0 ↔
      x.takeWhile (fun c => decide (c.toNat ≠ 0)) = y.takeWhile (fun c => decide (c.toNat ≠ 0)) := by
  induction x generalizing y with
  | nil =>
    cases y with
    | nil => simp [strcmpChars]
    | cons b bs =>
      by_cases hb : b.toNat = 0
      · simp [strcmpChars, List.takeWhile_cons, hb]
      · simp only [strcmpChars, List.takeWhile_cons, List.takeWhile_nil]
        simp [hb]
  | cons a as ih =>
    cases y with
    | nil =>
      by_cases ha : a.toNat = 0
      · simp [strcmpChars, List.takeWhile_cons, ha]
      · simp only [strcmpChars, List.takeWhile_cons, List.takeWhile_nil]
        simp [ha]
    | cons b bs =>
      by_cases hab : a = b
      · subst hab
        by_cases ha : a.toNat = 0
        · simp [strcmpChars, List.takeWhile_cons, ha]
        · simp [strcmpChars, List.takeWhile_cons, ha, ih bs]
      · have hne := char_toNat_sub_ne_zero a b hab
        by_cases ha : a.toNat = 0
        · by_cases hb : b.toNat = 0
          · exfalso; apply hne; omega
          · simp [strcmpChars, List.takeWhile_cons, ha, hb, hab, hne]
        · by_cases hb : b.toNat = 0
          · simp [strcmpChars, List.takeWhile_cons, ha, hb, hab, hne]
          · simp [strcmpChars, List.takeWhile_cons, ha, hb, hab, hne]

theorem supportSwapChain_iff (extensions : List VkExtensionProperties) :
    supportSwapChain extensions = true ↔ hasSwapchainExtension extensions := by
  induction extensions with
  | nil => simp [supportSwapChain, hasSwapchainExtension]
  | cons e rest ih =>
    have hname : strcmp e.extensionName VK_KHR_SWAPCHAIN_EXTENSION_NAME = 0 ↔
        cString e.extensionName = "VK_KHR_swapchain".data := by
      unfold strcmp cString
      rw [strcmpChars_eq_zero_iff]
      have hk : VK_KHR_SWAPCHAIN_EXTENSION_NAME.data.takeWhile (fun c => decide (c.toNat ≠ 0)) =
          "VK_KHR_swapchain".data := by decide
      rw [hk]
    unfold hasSwapchainExtension at ih ⊢
    by_cases h : strcmp e.extensionName VK_KHR_SWAPCHAIN_EXTENSION_NAME = 0
    · simp only [supportSwapChain, h, if_true, true_iff]
      exact ⟨e, List.mem_cons_self _ _, hname.mp h⟩
    · simp only [supportSwapChain, h, if_false, ih, List.mem_cons]
      constructor
      · rintro ⟨x, hx, hxn⟩
        exact ⟨x, Or.inr hx, hxn⟩
      · rintro ⟨x, hx | hx, hxn⟩
        · subst hx
          exact absurd (hname.mpr hxn) h
        · exact ⟨x, hx, hxn⟩

theorem score_eq (d : PhysicalDevice) :
    scorePhysicalDevice d =
      if supportSwapChain d._extensions = true then
        (if d._properties.deviceType = VK_PHYSICAL_DEVICE_TYPE_DISCRETE_GPU then 2000 else 1000)
      else 0 := by
  unfold scorePhysicalDevice
  by_cases h : supportSwapChain d._extensions = true <;> simp [h]

/-! ## The queue family scan -/

theorem isGraphicsFamily_of_drop (families rest : List VkQueueFamilyProperties)
    (q : VkQueueFamilyProperties) (i : Nat) (h : families.drop i = q :: rest) :
    isGraphicsFamily families i = decide (q.queueFlags &&& VK_QUEUE_GRAPHICS_BIT ≠ 0) ∧
      families.drop (i + 1) = rest := by
  have h0 : families[i]? = some q := by
    have := List.getElem?_drop (L := families) (i := i) (j := 0)
    rw [h] at this
    simpa using this.symm
  constructor
  · simp [isGraphicsFamily, h0]
  · have : families.drop (i + 1) = (families.drop i).drop 1 := by
      rw [List.drop_drop]
    rw [this, h]; rfl

theorem find_eq_scanFrom (families : List VkQueueFamilyProperties) (P : Nat → Bool) :
    ∀ (rest : List VkQueueFamilyProperties) (i : Nat) (g p : Int), families.drop i = rest →
      findQueueFamilyIndices P rest i g p =
        scanFrom (isGraphicsFamily families) P rest.length i g p := by
  intro rest
  induction rest with
  | nil => intro i g p _; rfl
  | cons q rest ih =>
    intro i g p h
    obtain ⟨hG, hdrop⟩ := isGraphicsFamily_of_drop families rest q i h
    simp only [findQueueFamilyIndices, scanFrom, List.length_cons, hG, decide_eq_true_eq]
    rw [ih (i + 1) _ _ hdrop]

theorem scanFrom_swap (G P : Nat → Bool) :
    ∀ (n i : Nat) (g p : Int), scanFrom G P n i g p = Prod.swap (scanFrom P G n i p g) := by
  intro n
  induction n with
  | zero => intro i g p; rfl
  | succ n ih =>
    intro i g p
    simp only [scanFrom]
    rw [ih (i + 1)]
    by_cases h : (0 ≤ (if G i = true then (i : Int) else g)) ∧
        (0 ≤ (if P i = true then (i : Int) else p))
    · rw [if_pos h, if_pos (And.symm h)]; rfl
    · rw [if_neg h, if_neg (fun h' => h (And.symm h'))]

theorem forall_range_succ (Q : Nat → Prop) (i n : Nat) :
    (∀ k, i ≤ k → k < i + (n + 1) → Q k) ↔ (Q i ∧ ∀ k, i + 1 ≤ k → k < i + 1 + n → Q k) := by
  constructor
  · intro h
    exact ⟨h i (le_refl i) (by omega), fun k h1 h2 => h k (by omega) (by omega)⟩
  · rintro ⟨h0, h⟩ k h1 h2
    rcases Nat.eq_or_lt_of_le h1 with e | l
    · exact e ▸ h0
    · exact h k l (by omega)

/-- The graphics field stays negative through the scan exactly when it was
negative on entry and no visited index passes the graphics test. -/
theorem scanFrom_fst_neg_iff (G P : Nat → Bool) :
    ∀ (n i : Nat) (g p : Int),
      (scanFrom G P n i g p).1 < 0 ↔ (g < 0 ∧ ∀ k, i ≤ k → k < i + n → G k = false) := by
  intro n
  induction n with
  | zero =>
    intro i g p
    simp only [scanFrom]
    exact ⟨fun h => ⟨h, fun k h1 h2 => by omega⟩, fun h => h.1⟩
  | succ n ih =>
    intro i g p
    simp only [scanFrom]
    rw [forall_range_succ (fun k => G k = false) i n]
    by_cases hG : G i = true
    · simp only [hG, if_true]
      split_ifs with hb
      all_goals first
        | (rw [ih]; constructor
           · rintro ⟨h, _⟩; omega
           · rintro ⟨_, h, _⟩; simp at h)
        | (constructor
           · intro h; simp at h; omega
           · rintro ⟨_, h, _⟩; simp at h)
    · have hG' : G i = false := by simpa using hG
      simp only [hG', Bool.false_eq_true, if_false]
      split_ifs with hb
      all_goals first
        | (rw [ih]; constructor
           · rintro ⟨h, h2⟩; exact ⟨h, trivial, h2⟩
           · rintro ⟨h, _, h2⟩; exact ⟨h, h2⟩)
        | (constructor
           · intro h; simp at h; omega
           · rintro ⟨h, _⟩; simp; omega)

/-- A value the scan leaves in the graphics field is the entry value or a
visited index that passes the graphics test. -/
theorem scanFrom_fst_valid (G P : Nat → Bool) :
    ∀ (n i : Nat) (g p : Int),
      (scanFrom G P n i g p).1 = g ∨
        ∃ k, i ≤ k ∧ k < i + n ∧ (scanFrom G P n i g p).1 = (k : Int) ∧ G k = true := by
  intro n
  induction n with
  | zero => intro i g p; left; rfl
  | succ n ih =>
    intro i g p
    simp only [scanFrom]
    generalize (if P i = true then (i : Int) else p) = p'
    by_cases hG : G i = true
    · simp only [hG, if_true]
      by_cases hb : (0 ≤ (i : Int)) ∧ (0 ≤ p')
      · rw [if_pos hb]
        right; exact ⟨i, le_refl i, by omega, rfl, hG⟩
      · rw [if_neg hb]
        rcases ih (i + 1) (i : Int) p' with h | ⟨k, h1, h2, h3, h4⟩
        · right; exact ⟨i, le_refl i, by omega, h, hG⟩
        · right; exact ⟨k, by omega, by omega, h3, h4⟩
    · have hG' : G i = false := by simpa using hG
      simp only [hG', Bool.false_eq_true, if_false]
      by_cases hb : (0 ≤ g) ∧ (0 ≤ p')
      · rw [if_pos hb]
        left; rfl
      · rw [if_neg hb]
        rcases ih (i + 1) g p' with h | ⟨k, h1, h2, h3, h4⟩
        · left; exact h
        · right; exact ⟨k, by omega, by omega, h3, h4⟩

/-- The exact value the scan leaves in the graphics field, when it is entered
with the two fields not both found. Either the entry value is kept, and then
every visited index passing the graphics test comes after the presentation
field was found; or the value is a visited index `k` passing the graphics test
such that every later visited index passing it comes after the presentation
field was found, and such that `k` was still visited: before `k` the graphics
field or the presentation field was not yet found. -/
theorem scanFrom_fst_char (G P : Nat → Bool) :
    ∀ (n i : Nat) (g p : Int), ¬ (0 ≤ g ∧ 0 ≤ p) →
      ((scanFrom G P n i g p).1 = g ∧
          ∀ m, i ≤ m → m < i + n → G m = true →
            (0 ≤ p ∨ ∃ j, i ≤ j ∧ j < m ∧ P j = true)) ∨
      ∃ k, i ≤ k ∧ k < i + n ∧ (scanFrom G P n i g p).1 = (k : Int) ∧ G k = true ∧
        (∀ m, k < m → m < i + n → G m = true →
          (0 ≤ p ∨ ∃ j, i ≤ j ∧ j < m ∧ P j = true)) ∧
        ((g < 0 ∧ ∀ j, i ≤ j → j < k → G j = false) ∨
          (p < 0 ∧ ∀ j, i ≤ j → j < k → P j = false)) := by
  intro n
  induction n with
  | zero =>
    intro i g p _
    left
    exact ⟨rfl, fun m h1 h2 => by omega⟩
  | succ n ih =>
    intro i g p hpre
    simp only [scanFrom]
    have key : ∀ p' : Int, (0 ≤ p' → (P i = true ∨ 0 ≤ p)) → (p' < 0 → (P i = false ∧ p < 0)) →
        (((if (0 ≤ (if G i = true then (i : Int) else g)) ∧ (0 ≤ p') then
              ((if G i = true then (i : Int) else g), p')
            else scanFrom G P n (i + 1) (if G i = true then (i : Int) else g) p').1 = g ∧
          ∀ m, i ≤ m → m < i + (n + 1) → G m = true →
            (0 ≤ p ∨ ∃ j, i ≤ j ∧ j < m ∧ P j = true)) ∨
        ∃ k, i ≤ k ∧ k < i + (n + 1) ∧
          (if (0 ≤ (if G i = true then (i : Int) else g)) ∧ (0 ≤ p') then
              ((if G i = true then (i : Int) else g), p')
            else scanFrom G P n (i + 1) (if G i = true then (i : Int) else g) p').1 = (k : Int) ∧
          G k = true ∧
          (∀ m, k < m → m < i + (n + 1) → G m = true →
            (0 ≤ p ∨ ∃ j, i ≤ j ∧ j < m ∧ P j = true)) ∧
          ((g < 0 ∧ ∀ j, i ≤ j → j < k → G j = false) ∨
            (p < 0 ∧ ∀ j, i ≤ j → j < k → P j = false))) := by
      intro p' hpos hneg
      -- what was found before a later index `m`, read in terms of the entry state
      have conv : ∀ m, i < m → (0 ≤ p' ∨ ∃ j, i + 1 ≤ j ∧ j < m ∧ P j = true) →
          (0 ≤ p ∨ ∃ j, i ≤ j ∧ j < m ∧ P j = true) := by
        intro m hm h
        rcases h with h | ⟨j, h1, h2, h3⟩
        · rcases hpos h with hP | hp
          · exact Or.inr ⟨i, le_refl i, hm, hP⟩
          · exact Or.inl hp
        · exact Or.inr ⟨j, by omega, h2, h3⟩
      have hpre' : g < 0 ∨ p < 0 := by
        by_contra hc
        exact hpre ⟨by omega, by omega⟩
      have here : (g < 0 ∧ ∀ j, i ≤ j → j < i → G j = false) ∨
          (p < 0 ∧ ∀ j, i ≤ j → j < i → P j = false) := by
        rcases hpre' with h | h
        · exact Or.inl ⟨h, fun j h1 h2 => by omega⟩
        · exact Or.inr ⟨h, fun j h1 h2 => by omega⟩
      by_cases hG : G i = true
      · simp only [hG, if_true]
        by_cases hb : (0 ≤ (i : Int)) ∧ (0 ≤ p')
        · rw [if_pos hb]
          right
          exact ⟨i, le_refl i, by omega, rfl, hG,
            fun m h1 _ _ => conv m h1 (Or.inl hb.2), here⟩
        · rw [if_neg hb]
          rcases ih (i + 1) (i : Int) p' hb with ⟨h, hall⟩ | ⟨k, h1, h2, h3, h4, h5, h6⟩
          · right
            exact ⟨i, le_refl i, by omega, h, hG,
              fun m h1 h2 h3 => conv m h1 (hall m (by omega) (by omega) h3), here⟩
          · right
            refine ⟨k, by omega, by omega, h3, h4,
              fun m hm1 hm2 hm3 => conv m (by omega) (h5 m hm1 (by omega) hm3), ?_⟩
            rcases h6 with ⟨hi, _⟩ | ⟨hp', hall⟩
            · omega
            · obtain ⟨hPi, hp⟩ := hneg hp'
              refine Or.inr ⟨hp, fun j hj1 hj2 => ?_⟩
              rcases Nat.eq_or_lt_of_le hj1 with e | l
              · exact e ▸ hPi
              · exact hall j l hj2
      · have hG' : G i = false := by simpa using hG
        simp only [hG', Bool.false_eq_true, if_false]
        have notHere : ∀ m, i ≤ m → G m = true → i < m := by
          intro m hm hGm
          rcases Nat.eq_or_lt_of_le hm with e | l
          · rw [← e, hG'] at hGm; exact absurd hGm (by simp)
          · exact l
        by_cases hb : (0 ≤ g) ∧ (0 ≤ p')
        · rw [if_pos hb]
          left
          exact ⟨rfl, fun m h1 _ h3 => conv m (notHere m h1 h3) (Or.inl hb.2)⟩
        · rw [if_neg hb]
          rcases ih (i + 1) g p' hb with ⟨h, hall⟩ | ⟨k, h1, h2, h3, h4, h5, h6⟩
          · left
            exact ⟨h, fun m h1 h2 h3 =>
              conv m (notHere m h1 h3) (hall m (notHere m h1 h3) (by omega) h3)⟩
          · right
            refine ⟨k, by omega, by omega, h3, h4,
              fun m hm1 hm2 hm3 => conv m (by omega) (h5 m hm1 (by omega) hm3), ?_⟩
            rcases h6 with ⟨hg, hall⟩ | ⟨hp', hall⟩
            · refine Or.inl ⟨hg, fun j hj1 hj2 => ?_⟩
              rcases Nat.eq_or_lt_of_le hj1 with e | l
              · exact e ▸ hG'
              · exact hall j l hj2
            · obtain ⟨hPi, hp⟩ := hneg hp'
              refine Or.inr ⟨hp, fun j hj1 hj2 => ?_⟩
              rcases Nat.eq_or_lt_of_le hj1 with e | l
              · exact e ▸ hPi
              · exact hall j l hj2
    apply key
    · intro h
      by_cases hP : P i = true
      · exact Or.inl hP
      · right; simpa [hP] using h
    · intro h
      by_cases hP : P i = true
      · simp only [hP, if_true] at h; omega
      · have hP' : P i = false := by simpa using hP
        refine ⟨hP', ?_⟩
        simpa [hP'] using h

/-! ## The indices recorded for a device -/

theorem isGraphicsFamily_lt (families : List VkQueueFamilyProperties) (k : Nat)
    (h : isGraphicsFamily families k = true) : k < families.length := by
  by_contra hk
  have : families[k]? = none := List.getElem?_eq_none (by omega)
  simp [isGraphicsFamily, this] at h

theorem isGraphicsFamily_iff (families : List VkQueueFamilyProperties) (k : Nat) :
    isGraphicsFamily families k = true ↔
      ∃ q, families[k]? = some q ∧ q.queueFlags &&& VK_QUEUE_GRAPHICS_BIT ≠ 0 := by
  unfold isGraphicsFamily
  cases h : families[k]? with
  | none => simp
  | some q => simp

theorem isGraphicsFamily_all_false_iff (families : List VkQueueFamilyProperties) :
    (∀ k, isGraphicsFamily families k = false) ↔
      ∀ q ∈ families, q.queueFlags &&& VK_QUEUE_GRAPHICS_BIT = 0 := by
  constructor
  · intro h q hq
    obtain ⟨k, hk, rfl⟩ := List.getElem_of_mem hq
    by_contra hne
    have : isGraphicsFamily families k = true :=
      (isGraphicsFamily_iff families k).mpr ⟨families[k], List.getElem?_eq_getElem hk, hne⟩
    rw [h k] at this
    exact absurd this (by simp)
  · intro h k
    by_contra hne
    have ht : isGraphicsFamily families k = true := by simpa using hne
    obtain ⟨q, hq, hbit⟩ := (isGraphicsFamily_iff families k).mp ht
    exact hbit (h q (List.mem_iff_getElem?.mpr ⟨k, hq⟩))

theorem graphicsIndex_eq (d : DriverDevice) :
    graphicsIndex d =
      (scanFrom (isGraphicsFamily d.queueFamilies) d.surfaceSupport
        d.queueFamilies.length 0 (-1) (-1)).1 := by
  unfold graphicsIndex probePhysicalDevice
  simp only
  rw [find_eq_scanFrom d.queueFamilies d.surfaceSupport d.queueFamilies 0 (-1) (-1) rfl]

theorem presentationIndex_eq (d : DriverDevice) :
    presentationIndex d =
      (scanFrom d.surfaceSupport (isGraphicsFamily d.queueFamilies)
        d.queueFamilies.length 0 (-1) (-1)).1 := by
  unfold presentationIndex probePhysicalDevice
  simp only
  rw [find_eq_scanFrom d.queueFamilies d.surfaceSupport d.queueFamilies 0 (-1) (-1) rfl,
    scanFrom_swap]
  rfl

theorem isPresentFamily_eq (d : DriverDevice) (k : Nat) (h : k < d.queueFamilies.length) :
    isPresentFamily d k = d.surfaceSupport k := by
  simp [isPresentFamily, h]

theorem isPresentFamily_lt (d : DriverDevice) (k : Nat) (h : isPresentFamily d k = true) :
    k < d.queueFamilies.length := by
  simp only [isPresentFamily, Bool.and_eq_true, decide_eq_true_eq] at h
  exact h.1

/-- The graphics index is negative exactly when no family has the graphics
bit. -/
theorem graphicsIndex_neg_iff (d : DriverDevice) :
    graphicsIndex d < 0 ↔ ∀ k, isGraphicsFamily d.queueFamilies k = false := by
  rw [graphicsIndex_eq, scanFrom_fst_neg_iff]
  constructor
  · rintro ⟨_, h⟩ k
    by_cases hk : k < d.queueFamilies.length
    · exact h k (Nat.zero_le k) (by omega)
    · by_contra hne
      exact hk (isGraphicsFamily_lt _ k (by simpa using hne))
  · intro h
    exact ⟨by omega, fun k _ _ => h k⟩

/-- The presentation index is negative exactly when no family can present. -/
theorem presentationIndex_neg_iff (d : DriverDevice) :
    presentationIndex d < 0 ↔ ∀ k, isPresentFamily d k = false := by
  rw [presentationIndex_eq, scanFrom_fst_neg_iff]
  constructor
  · rintro ⟨_, h⟩ k
    by_cases hk : k < d.queueFamilies.length
    · rw [isPresentFamily_eq d k hk]
      exact h k (Nat.zero_le k) (by omega)
    · simp [isPresentFamily, hk]
  · intro h
    refine ⟨by omega, fun k _ hk => ?_⟩
    rw [← isPresentFamily_eq d k (by omega)]
    exact h k

/-- The graphics index is `-1` or the index of a family with the graphics
bit. -/
theorem graphicsIndex_valid (d : DriverDevice) :
    graphicsIndex d = -1 ∨
      ∃ k : Nat, graphicsIndex d = (k : Int) ∧ isGraphicsFamily d.queueFamilies k = true := by
  rw [graphicsIndex_eq]
  rcases scanFrom_fst_valid (isGraphicsFamily d.queueFamilies) d.surfaceSupport
      d.queueFamilies.length 0 (-1) (-1) with h | ⟨k, _, _, h3, h4⟩
  · exact Or.inl h
  · exact Or.inr ⟨k, h3, h4⟩

/-- The presentation index is `-1` or the index of a family that can
present. -/
theorem presentationIndex_valid (d : DriverDevice) :
    presentationIndex d = -1 ∨
      ∃ k : Nat, presentationIndex d = (k : Int) ∧ isPresentFamily d k = true := by
  rw [presentationIndex_eq]
  rcases scanFrom_fst_valid d.surfaceSupport (isGraphicsFamily d.queueFamilies)
      d.queueFamilies.length 0 (-1) (-1) with h | ⟨k, _, h2, h3, h4⟩
  · exact Or.inl h
  · refine Or.inr ⟨k, h3, ?_⟩
    rw [isPresentFamily_eq d k (by omega)]
    exact h4

/-- The graphics index, exactly: `-1` when no family has the graphics bit;
otherwise the index `k` of a graphics family that the scan still visits (before
`k` there is no graphics family, or no presentable family) and that no later
visit overwrites (every later graphics family has a presentable family before
it, so the scan has stopped by then). -/
theorem graphicsIndex_char (d : DriverDevice) :
    (graphicsIndex d = -1 ∧ ∀ k, isGraphicsFamily d.queueFamilies k = false) ∨
      ∃ k : Nat, graphicsIndex d = (k : Int) ∧ isGraphicsFamily d.queueFamilies k = true ∧
        ((∀ j, j < k → isGraphicsFamily d.queueFamilies j = false) ∨
          (∀ j, j < k → isPresentFamily d j = false)) ∧
        (∀ m, k < m → isGraphicsFamily d.queueFamilies m = true →
          ∃ j, j < m ∧ isPresentFamily d j = true) := by
  have hneg := graphicsIndex_neg_iff d
  rw [graphicsIndex_eq] at hneg ⊢
  rcases scanFrom_fst_char (isGraphicsFamily d.queueFamilies) d.surfaceSupport
      d.queueFamilies.length 0 (-1) (-1) (by omega) with ⟨h, _⟩ | ⟨k, _, hk, h3, h4, h5, h6⟩
  · left
    exact ⟨h, hneg.mp (by omega)⟩
  · right
    refine ⟨k, h3, h4, ?_, ?_⟩
    · rcases h6 with ⟨_, hall⟩ | ⟨_, hall⟩
      · exact Or.inl fun j hj => hall j (Nat.zero_le j) hj
      · refine Or.inr fun j hj => ?_
        rw [isPresentFamily_eq d j (by omega)]
        exact hall j (Nat.zero_le j) hj
    · intro m hm hGm
      have hml := isGraphicsFamily_lt _ m hGm
      rcases h5 m hm (by omega) hGm with h | ⟨j, _, hj, hP⟩
      · omega
      · refine ⟨j, hj, ?_⟩
        rw [isPresentFamily_eq d j (by omega)]
        exact hP

/-- The presentation index, exactly: `-1` when no family can present; otherwise
the index `k` of a presentable family that the scan still visits (before `k`
there is no presentable family, or no graphics family) and that no later visit
overwrites (every later presentable family has a graphics family before it). -/
theorem presentationIndex_char (d : DriverDevice) :
    (presentationIndex d = -1 ∧ ∀ k, isPresentFamily d k = false) ∨
      ∃ k : Nat, presentationIndex d = (k : Int) ∧ isPresentFamily d k = true ∧
        ((∀ j, j < k → isPresentFamily d j = false) ∨
          (∀ j, j < k → isGraphicsFamily d.queueFamilies j = false)) ∧
        (∀ m, k < m → isPresentFamily d m = true →
          ∃ j, j < m ∧ isGraphicsFamily d.queueFamilies j = true) := by
  have hneg := presentationIndex_neg_iff d
  rw [presentationIndex_eq] at hneg ⊢
  rcases scanFrom_fst_char d.surfaceSupport (isGraphicsFamily d.queueFamilies)
      d.queueFamilies.length 0 (-1) (-1) (by omega) with ⟨h, _⟩ | ⟨k, _, hk, h3, h4, h5, h6⟩
  · left
    exact ⟨h, hneg.mp (by omega)⟩
  · right
    refine ⟨k, h3, ?_, ?_, ?_⟩
    · rw [isPresentFamily_eq d k (by omega)]
      exact h4
    · rcases h6 with ⟨_, hall⟩ | ⟨_, hall⟩
      · refine Or.inl fun j hj => ?_
        rw [isPresentFamily_eq d j (by omega)]
        exact hall j (Nat.zero_le j) hj
      · exact Or.inr fun j hj => hall j (Nat.zero_le j) hj
    · intro m hm hPm
      have hml := isPresentFamily_lt d m hPm
      rw [isPresentFamily_eq d m hml] at hPm
      rcases h5 m hm (by omega) hPm with h | ⟨j, _, hj, hG⟩
      · omega
      · exact ⟨j, hj, hG⟩

/-! ## Sorting -/

theorem StrictWeakOrdering.asymm {α : Type} {comp : α → α → Bool} (h : StrictWeakOrdering comp)
    (a b : α) (hab : comp a b = true) : comp b a = false := by
  by_contra hba
  have hba' : comp b a = true := by simpa using hba
  have := h.trans a b a hab hba'
  rw [h.irrefl a] at this
  exact absurd this (by simp)

theorem StrictWeakOrdering.neg_trans {α : Type} {comp : α → α → Bool}
    (h : StrictWeakOrdering comp) (y b a : α) (hyb : comp y b = false) (hba : comp b a = false) :
    comp y a = false := by
  by_contra hya
  have hya' : comp y a = true := by simpa using hya
  have hby : comp b y = false := by
    by_contra hc
    have := h.trans b y a (by simpa using hc) hya'
    rw [hba] at this
    exact absurd this (by simp)
  have hab : comp a b = false := by
    by_contra hc
    have := h.trans y a b hya' (by simpa using hc)
    rw [hyb] at this
    exact absurd this (by simp)
  exact hya (h.incomp_trans y b a hyb hby hba hab).1

theorem insertSorted_perm {α : Type} (comp : α → α → Bool) (a : α) :
    ∀ l : List α, (insertSorted comp a l).Perm (a :: l) := by
  intro l
  induction l with
  | nil => exact List.Perm.refl _
  | cons b l ih =>
    simp only [insertSorted]
    by_cases hc : comp b a = true
    · rw [if_pos hc]
      exact ((List.Perm.cons b ih).trans (List.Perm.swap a b l))
    · rw [if_neg hc]

theorem insertionSort_perm {α : Type} (comp : α → α → Bool) :
    ∀ l : List α, (insertionSort comp l).Perm l := by
  intro l
  induction l with
  | nil => exact List.Perm.refl _
  | cons a l ih =>
    simp only [insertionSort]
    exact (insertSorted_perm comp a _).trans (List.Perm.cons a ih)

theorem insertSorted_pairwise {α : Type} {comp : α → α → Bool} (h : StrictWeakOrdering comp)
    (a : α) : ∀ l : List α, l.Pairwise (fun x y => comp y x = false) →
      (insertSorted comp a l).Pairwise (fun x y => comp y x = false) := by
  intro l
  induction l with
  | nil => intro _; simp [insertSorted]
  | cons b l ih =>
    intro hl
    rw [List.pairwise_cons] at hl
    simp only [insertSorted]
    by_cases hc : comp b a = true
    · rw [if_pos hc, List.pairwise_cons]
      refine ⟨fun y hy => ?_, ih hl.2⟩
      rcases List.mem_cons.mp ((insertSorted_perm comp a l).subset hy) with e | hy'
      · rw [e]; exact h.asymm b a hc
      · exact hl.1 y hy'
    · have hc' : comp b a = false := by simpa using hc
      rw [if_neg hc, List.pairwise_cons]
      refine ⟨fun y hy => ?_, List.pairwise_cons.mpr hl⟩
      rcases List.mem_cons.mp hy with e | hy'
      · rw [e]; exact hc'
      · exact h.neg_trans y b a (hl.1 y hy') hc'

theorem insertionSort_pairwise {α : Type} {comp : α → α → Bool} (h : StrictWeakOrdering comp) :
    ∀ l : List α, (insertionSort comp l).Pairwise (fun x y => comp y x = false) := by
  intro l
  induction l with
  | nil => simp [insertionSort]
  | cons a l ih => exact insertSorted_pairwise h a _ ih

/-- The insertion sort meets the contract of `std::sort`. -/
theorem insertionSort_contract {α : Type} : StdSortContract (insertionSort (α := α)) :=
  ⟨fun comp l _ => insertionSort_perm comp l, fun _ l h => insertionSort_pairwise h l⟩

/-- The comparison `a._score > b._score` is a strict weak ordering, as
`std::sort` requires. -/
theorem bestFirst_strictWeakOrdering : StrictWeakOrdering bestFirst := by
  refine ⟨?_, ?_, ?_⟩
  · intro a; simp [bestFirst]
  · intro a b c; simp only [bestFirst, decide_eq_true_eq]; omega
  · intro a b c; simp only [bestFirst, decide_eq_false_iff_not, gt_iff_lt, not_lt]; omega

/-! ## Enumeration -/

theorem foldl_probe (devices : List DriverDevice) :
    ∀ m : List PhysicalDevice,
      devices.foldl (fun acc deviceHandle => acc ++ [probePhysicalDevice deviceHandle]) m =
        m ++ devices.map probePhysicalDevice := by
  induction devices with
  | nil => intro m; simp
  | cons d rest ih => intro m; simp [List.foldl_cons, ih]

theorem enumerate_of_ne_nil
    (sort : (PhysicalDevice → PhysicalDevice → Bool) → List PhysicalDevice → List PhysicalDevice)
    (devices : List DriverDevice) (h : devices ≠ []) :
    enumerate sort devices =
      (Except.ok (), sort bestFirst (devices.map probePhysicalDevice)) := by
  have hlen : devices.length ≠ 0 := fun h0 => h (List.length_eq_zero.mp h0)
  unfold enumerate enumeratePhysicalDevices
  simp only [hlen, if_false, foldl_probe, List.nil_append]

theorem probe_score (d : DriverDevice) :
    (probePhysicalDevice d)._score = scorePhysicalDevice (probePhysicalDevice d) := rfl

theorem sorted_descending
    (sort : (PhysicalDevice → PhysicalDevice → Bool) → List PhysicalDevice → List PhysicalDevice)
    (hsort : StdSortContract sort) (l : List PhysicalDevice) :
    (sort bestFirst l).Pairwise (fun a b => b._score ≤ a._score) := by
  refine (hsort.sorted bestFirst l bestFirst_strictWeakOrdering).imp ?_
  intro a b hab
  simpa [bestFirst] using hab

/-! ## The claims -/

/-- C1: for every candidate whose extension list has no entry named
`VK_KHR_swapchain`, `scorePhysicalDevice` returns exactly 0, whatever the device
class, the feature flags and the queue families are. -/
theorem scorePhysicalDevice_zero_without_swapchain (_device : PhysicalDevice)
    (h : ¬ hasSwapchainExtension _device._extensions) : scorePhysicalDevice _device = 0 := by
  rw [score_eq, if_neg (fun hs => h ((supportSwapChain_iff _).mp hs))]

theorem scorePhysicalDevice_zero_without_swapchain_witness :
    ¬ hasSwapchainExtension candidateWithoutSwapchain._extensions ∧
      candidateWithoutSwapchain._properties.deviceType = VK_PHYSICAL_DEVICE_TYPE_DISCRETE_GPU ∧
      scorePhysicalDevice candidateWithoutSwapchain = 0 :=
  have h : ¬ hasSwapchainExtension candidateWithoutSwapchain._extensions := by
    unfold hasSwapchainExtension; decide
  ⟨h, rfl, scorePhysicalDevice_zero_without_swapchain candidateWithoutSwapchain h⟩

/-- C2: for candidates whose extension list contains `VK_KHR_swapchain`,
`scorePhysicalDevice` returns 2000 when the device class is discrete GPU and
1000 for every other class; so of two such candidates, one discrete and one
integrated, the discrete one scores strictly higher. -/
theorem scorePhysicalDevice_with_swapchain (a b : PhysicalDevice)
    (ha : hasSwapchainExtension a._extensions) (hb : hasSwapchainExtension b._extensions) :
    (a._properties.deviceType = VK_PHYSICAL_DEVICE_TYPE_DISCRETE_GPU →
        scorePhysicalDevice a = 2000) ∧
      (a._properties.deviceType ≠ VK_PHYSICAL_DEVICE_TYPE_DISCRETE_GPU →
        scorePhysicalDevice a = 1000) ∧
      (a._properties.deviceType = VK_PHYSICAL_DEVICE_TYPE_DISCRETE_GPU →
        b._properties.deviceType = VK_PHYSICAL_DEVICE_TYPE_INTEGRATED_GPU →
        scorePhysicalDevice b < scorePhysicalDevice a) := by
  have hsa := (supportSwapChain_iff _).mpr ha
  have hsb := (supportSwapChain_iff _).mpr hb
  rw [score_eq, score_eq, if_pos hsa, if_pos hsb]
  refine ⟨fun h => by rw [if_pos h], fun h => by rw [if_neg h], fun h1 h2 => ?_⟩
  rw [if_pos h1, h2]
  decide

theorem scorePhysicalDevice_with_swapchain_witness :
    scorePhysicalDevice (candidateWithSwapchain VK_PHYSICAL_DEVICE_TYPE_DISCRETE_GPU) = 2000 ∧
      scorePhysicalDevice (candidateWithSwapchain VK_PHYSICAL_DEVICE_TYPE_INTEGRATED_GPU) <
        scorePhysicalDevice (candidateWithSwapchain VK_PHYSICAL_DEVICE_TYPE_DISCRETE_GPU) :=
  have h : ∀ t, hasSwapchainExtension (candidateWithSwapchain t)._extensions := by
    intro t
    exact ⟨⟨"VK_KHR_swapchain", 70⟩, by simp [candidateWithSwapchain], by decide⟩
  have key := scorePhysicalDevice_with_swapchain
    (candidateWithSwapchain VK_PHYSICAL_DEVICE_TYPE_DISCRETE_GPU)
    (candidateWithSwapchain VK_PHYSICAL_DEVICE_TYPE_INTEGRATED_GPU) (h _) (h _)
  ⟨key.1 rfl, key.2.2 rfl rfl⟩

/-- C5: when the driver reports zero physical devices, `enumeratePhysicalDevices`
throws the no-device message and adds no candidate (`m_physicalDevices` is left
as it was, empty for the constructor's call); and it throws only when the
device count is zero. -/
theorem enumerate_no_device
    (sort : (PhysicalDevice → PhysicalDevice → Bool) → List PhysicalDevice → List PhysicalDevice)
    (devices : List DriverDevice) (m_physicalDevices : List PhysicalDevice) :
    enumeratePhysicalDevices sort [] m_physicalDevices =
        (Except.error noDeviceFound, m_physicalDevices) ∧
      enumerate sort [] = (Except.error noDeviceFound, []) ∧
      ((∃ e, (enumeratePhysicalDevices sort devices m_physicalDevices).1 = Except.error e) ↔
        devices = []) ∧
      ((enumerate sort devices).1 = Except.error noDeviceFound ↔ devices = []) := by
  refine ⟨rfl, rfl, ?_, ?_⟩
  · cases devices with
    | nil => simp [enumeratePhysicalDevices]
    | cons d rest => simp [enumeratePhysicalDevices]
  · cases devices with
    | nil => simp [enumerate, enumeratePhysicalDevices]
    | cons d rest => simp [enumerate, enumeratePhysicalDevices]

/-- C9: the queue family scan does not stop before both indices are found or
the family list is exhausted: the recorded graphics index is `-1` if and only if
no queue family has the graphics bit, and the recorded presentation index is
`-1` if and only if no queue family can present to the surface. -/
theorem indices_absent_iff (d : DriverDevice) :
    (graphicsIndex d = -1 ↔
        ∀ q ∈ d.queueFamilies, q.queueFlags &&& VK_QUEUE_GRAPHICS_BIT = 0) ∧
      (presentationIndex d = -1 ↔
        ∀ k, k < d.queueFamilies.length → d.surfaceSupport k = false) := by
  constructor
  · rw [← isGraphicsFamily_all_false_iff, ← graphicsIndex_neg_iff]
    rcases graphicsIndex_valid d with h | ⟨k, h, _⟩ <;> rw [h] <;> constructor <;> intro <;> omega
  · have hall : (∀ k, isPresentFamily d k = false) ↔
        ∀ k, k < d.queueFamilies.length → d.surfaceSupport k = false := by
      constructor
      · intro h k hk
        rw [← isPresentFamily_eq d k hk]; exact h k
      · intro h k
        by_cases hk : k < d.queueFamilies.length
        · rw [isPresentFamily_eq d k hk]; exact h k hk
        · simp [isPresentFamily, hk]
    rw [← hall, ← presentationIndex_neg_iff]
    rcases presentationIndex_valid d with h | ⟨k, h, _⟩ <;> rw [h] <;> constructor <;> intro <;>
      omega

/-- C10: each index recorded by the queue family scan is `-1` or a valid
witness: a graphics index `i ≥ 0` is below the number of queue families and
family `i` has the graphics bit; a presentation index `j ≥ 0` is below the number
of queue families and the driver reports family `j` as presentable. -/
theorem indices_valid (d : DriverDevice) :
    (graphicsIndex d = -1 ∨
        ∃ i : Nat, graphicsIndex d = (i : Int) ∧ i < d.queueFamilies.length ∧
          ∃ q, d.queueFamilies[i]? = some q ∧ q.queueFlags &&& VK_QUEUE_GRAPHICS_BIT ≠ 0) ∧
      (presentationIndex d = -1 ∨
        ∃ j : Nat, presentationIndex d = (j : Int) ∧ j < d.queueFamilies.length ∧
          d.surfaceSupport j = true) := by
  constructor
  · rcases graphicsIndex_valid d with h | ⟨k, h, hG⟩
    · exact Or.inl h
    · exact Or.inr ⟨k, h, isGraphicsFamily_lt _ k hG, (isGraphicsFamily_iff _ k).mp hG⟩
  · rcases presentationIndex_valid d with h | ⟨k, h, hP⟩
    · exact Or.inl h
    · have hk := isPresentFamily_lt d k hP
      rw [isPresentFamily_eq d k hk] at hP
      exact Or.inr ⟨k, h, hk, hP⟩

/-- C3: for every non-empty list of devices reported by the driver,
`enumeratePhysicalDevices` returns normally and the candidate list it leaves
holds the candidate of every reported device exactly once (it is a
rearrangement of the candidates in enumeration order) in descending order of
score: for all positions `i < j` of the result, the score at `i` is at least
the score at `j`; the stored score of each candidate is the value of
`scorePhysicalDevice` on it. -/
theorem enumerate_descending_score
    (sort : (PhysicalDevice → PhysicalDevice → Bool) → List PhysicalDevice → List PhysicalDevice)
    (hsort : StdSortContract sort) (devices : List DriverDevice) (hne : devices ≠ []) :
    ∃ result, enumerate sort devices = (Except.ok (), result) ∧
      result.Perm (devices.map probePhysicalDevice) ∧
      result.length = devices.length ∧
      (∀ d ∈ devices, probePhysicalDevice d ∈ result) ∧
      (∀ c ∈ result, c._score = scorePhysicalDevice c) ∧
      ∀ (i j : Nat) (a b : PhysicalDevice), i < j → result[i]? = some a → result[j]? = some b →
        scorePhysicalDevice b ≤ scorePhysicalDevice a ∧ b._score ≤ a._score := by
  have hperm := hsort.perm bestFirst (devices.map probePhysicalDevice) bestFirst_strictWeakOrdering
  have hstored : ∀ c, c ∈ sort bestFirst (devices.map probePhysicalDevice) →
      c._score = scorePhysicalDevice c := by
    intro c hc
    obtain ⟨d, _, rfl⟩ := List.mem_map.mp (hperm.subset hc)
    exact probe_score d
  refine ⟨_, enumerate_of_ne_nil sort devices hne, hperm, ?_, ?_, hstored, ?_⟩
  · rw [hperm.length_eq, List.length_map]
  · intro d hd
    exact hperm.symm.subset (List.mem_map.mpr ⟨d, hd, rfl⟩)
  · intro i j a b hij ha hb
    have hle : b._score ≤ a._score := by
      have hp := sorted_descending sort hsort (devices.map probePhysicalDevice)
      obtain ⟨hi, hai⟩ := List.getElem?_eq_some.mp ha
      obtain ⟨hj, hbj⟩ := List.getElem?_eq_some.mp hb
      have := List.pairwise_iff_getElem.mp hp i j hi hj hij
      rw [hai, hbj] at this
      exact this
    rw [← hstored a (List.mem_iff_getElem?.mpr ⟨i, ha⟩),
      ← hstored b (List.mem_iff_getElem?.mpr ⟨j, hb⟩)]
    exact ⟨hle, hle⟩

theorem enumerate_descending_score_witness :
    ∃ result,
      enumerate insertionSort [integratedDevice, discreteWithoutSwapchain, discreteDevice] =
        (Except.ok (), result) ∧
      result.Perm ([integratedDevice, discreteWithoutSwapchain, discreteDevice].map
        probePhysicalDevice) ∧
      result.length = [integratedDevice, discreteWithoutSwapchain, discreteDevice].length ∧
      (∀ d ∈ [integratedDevice, discreteWithoutSwapchain, discreteDevice],
        probePhysicalDevice d ∈ result) ∧
      (∀ c ∈ result, c._score = scorePhysicalDevice c) ∧
      ∀ (i j : Nat) (a b : PhysicalDevice), i < j → result[i]? = some a → result[j]? = some b →
        scorePhysicalDevice b ≤ scorePhysicalDevice a ∧ b._score ≤ a._score :=
  enumerate_descending_score insertionSort insertionSort_contract
    [integratedDevice, discreteWithoutSwapchain, discreteDevice] (by simp)

/-- C4, refuted: seventeen devices of equal score, enumerated with handles 1 to
17. One more element than the threshold of 16 makes the `std::sort` of libstdc++
partition the vector, and the candidates come out in the handle order 9, 17,
16, ..., 10, 1, 8, 7, ..., 2: the candidate enumerated first is in tenth place,
behind nine candidates enumerated after it. -/
theorem enumerate_ties_reordered :
    seventeenIntegrated.map (fun d => d.handle) =
        [1, 2, 3, 4, 5, 6, 7, 8, 9, 10, 11, 12, 13, 14, 15, 16, 17] ∧
      (seventeenIntegrated.map probePhysicalDevice).map (fun c => c._score) =
        List.replicate 17 1000 ∧
      (std_sort bestFirst (seventeenIntegrated.map probePhysicalDevice)).map
          (fun r => r.map (fun c => c._device)) =
        some [9, 17, 16, 15, 14, 13, 12, 11, 10, 1, 8, 7, 6, 5, 4, 3, 2] ∧
      (enumerate libstdcxxSort seventeenIntegrated).1 = Except.ok () ∧
      (enumerate libstdcxxSort seventeenIntegrated).2.map (fun c => c._device) =
        [9, 17, 16, 15, 14, 13, 12, 11, 10, 1, 8, 7, 6, 5, 4, 3, 2] := by
  refine ⟨by decide, by decide, by decide!, rfl, by decide!⟩

/-- C4, amended: for every non-empty list of devices, `enumeratePhysicalDevices`
keeps every candidate exactly once, so the candidates of each score in the
result are those of that score in enumeration order, rearranged; the order
among candidates of equal score is the one `std::sort` happens to leave. -/
theorem enumerate_ties_kept
    (sort : (PhysicalDevice → PhysicalDevice → Bool) → List PhysicalDevice → List PhysicalDevice)
    (hsort : StdSortContract sort) (devices : List DriverDevice) (hne : devices ≠ []) :
    ∃ result, enumerate sort devices = (Except.ok (), result) ∧
      result.Perm (devices.map probePhysicalDevice) ∧
      ∀ score : Nat, (result.filter (fun c => decide (c._score = score))).Perm
        ((devices.map probePhysicalDevice).filter (fun c => decide (c._score = score))) := by
  have hperm := hsort.perm bestFirst (devices.map probePhysicalDevice) bestFirst_strictWeakOrdering
  exact ⟨_, enumerate_of_ne_nil sort devices hne, hperm, fun _ => hperm.filter _⟩

theorem enumerate_ties_kept_witness :
    ∃ result,
      enumerate insertionSort [integratedDevice, secondIntegratedDevice, discreteDevice] =
        (Except.ok (), result) ∧
      result.Perm ([integratedDevice, secondIntegratedDevice, discreteDevice].map
        probePhysicalDevice) ∧
      ∀ score : Nat, (result.filter (fun c => decide (c._score = score))).Perm
        (([integratedDevice, secondIntegratedDevice, discreteDevice].map
          probePhysicalDevice).filter (fun c => decide (c._score = score))) :=
  enumerate_ties_kept insertionSort insertionSort_contract
    [integratedDevice, secondIntegratedDevice, discreteDevice] (by simp)

/-- C6, refuted: for the family list `[transfer-only, graphics,
graphics+compute]` with only family 2 presentable, the lowest graphics family
is 1 but the recorded graphics index is 2; the same when no family can
present. -/
theorem graphicsIndex_not_first :
    presentOnlyLast.queueFamilies = sampleFamilies ∧
      isGraphicsFamily presentOnlyLast.queueFamilies 0 = false ∧
      isGraphicsFamily presentOnlyLast.queueFamilies 1 = true ∧
      graphicsIndex presentOnlyLast = 2 ∧
      graphicsIndex (sampleDevice 6 VK_PHYSICAL_DEVICE_TYPE_DISCRETE_GPU [] sampleFamilies []) =
        2 := by
  decide

/-- C6, amended: the recorded graphics index is `-1` when no family has the
graphics bit, and otherwise the index `k` of the last graphics family visited
before the scan stops: `k` has the graphics bit, before `k` there is no graphics
family or no presentable family, and every later graphics family has a
presentable family before it. It is the lowest graphics index whenever some
family at or before the first graphics family can present. For the family list
`[transfer-only, graphics, graphics+compute]` it is 1 when family 0 or family 1
can present, and 2 otherwise. -/
theorem graphicsIndex_last_visited (d : DriverDevice) :
    ((graphicsIndex d = -1 ∧ ∀ q ∈ d.queueFamilies, q.queueFlags &&& VK_QUEUE_GRAPHICS_BIT = 0) ∨
        ∃ k : Nat, graphicsIndex d = (k : Int) ∧ isGraphicsFamily d.queueFamilies k = true ∧
          ((∀ j, j < k → isGraphicsFamily d.queueFamilies j = false) ∨
            (∀ j, j < k → isPresentFamily d j = false)) ∧
          (∀ m, k < m → isGraphicsFamily d.queueFamilies m = true →
            ∃ j, j < m ∧ isPresentFamily d j = true)) ∧
      (∀ k : Nat, isGraphicsFamily d.queueFamilies k = true →
        (∀ j, j < k → isGraphicsFamily d.queueFamilies j = false) →
        (∃ j, j ≤ k ∧ isPresentFamily d j = true) → graphicsIndex d = (k : Int)) ∧
      (d.queueFamilies = sampleFamilies →
        graphicsIndex d =
          if d.surfaceSupport 0 = true ∨ d.surfaceSupport 1 = true then 1 else 2) := by
  refine ⟨?_, ?_, ?_⟩
  · rcases graphicsIndex_char d with ⟨h, hall⟩ | h
    · exact Or.inl ⟨h, (isGraphicsFamily_all_false_iff _).mp hall⟩
    · exact Or.inr h
  · intro k hGk hfirst ⟨j, hjk, hPj⟩
    rcases graphicsIndex_char d with ⟨_, hall⟩ | ⟨k', h, hGk', hvisited, _⟩
    · rw [hall k] at hGk; exact absurd hGk (by simp)
    · have h1 : ¬ k' < k := fun hlt => by
        rw [hfirst k' hlt] at hGk'; exact absurd hGk' (by simp)
      have h2 : ¬ k < k' := fun hlt => by
        rcases hvisited with hv | hv
        · rw [hv k hlt] at hGk; exact absurd hGk (by simp)
        · rw [hv j (by omega)] at hPj; exact absurd hPj (by simp)
      have : k' = k := by omega
      rw [h, this]
  · intro hfam
    unfold graphicsIndex probePhysicalDevice
    simp only [hfam]
    cases h0 : d.surfaceSupport 0 <;> cases h1 : d.surfaceSupport 1 <;>
      cases h2 : d.surfaceSupport 2 <;>
      simp [findQueueFamilyIndices, sampleFamilies, family, VK_QUEUE_GRAPHICS_BIT,
        VK_QUEUE_TRANSFER_BIT, VK_QUEUE_COMPUTE_BIT, h0, h1, h2]

theorem graphicsIndex_last_visited_witness :
    graphicsIndex (sampleDevice 6 VK_PHYSICAL_DEVICE_TYPE_DISCRETE_GPU [] sampleFamilies [0]) = 1 ∧
      graphicsIndex presentOnlyLast = 2 :=
  ⟨(graphicsIndex_last_visited
      (sampleDevice 6 VK_PHYSICAL_DEVICE_TYPE_DISCRETE_GPU [] sampleFamilies [0])).2.1 1
      (by decide) (by decide) ⟨0, by decide, by decide⟩,
    (graphicsIndex_last_visited presentOnlyLast).2.2 rfl⟩

/-- C7, refuted: two devices with the same presentation support (families 0
and 1 both presentable) and different graphics flags get different presentation
indices, and the first of them does not get its lowest presentable family. -/
theorem presentationIndex_depends_on_graphics :
    transferThenGraphics.queueFamilies.length = graphicsTwice.queueFamilies.length ∧
      (∀ k, transferThenGraphics.surfaceSupport k = graphicsTwice.surfaceSupport k) ∧
      isPresentFamily transferThenGraphics 0 = true ∧
      presentationIndex transferThenGraphics = 1 ∧
      presentationIndex graphicsTwice = 0 :=
  ⟨rfl, fun _ => rfl, by decide, by decide, by decide⟩

/-- C7, amended: the recorded presentation index is `-1` when no family can
present, and otherwise the index `k` of the last presentable family visited
before the scan stops: `k` can present, before `k` there is no presentable
family or no graphics family, and every later presentable family has a graphics
family before it; so it depends on the graphics flags through the place where
the scan stops. It is the lowest presentable index whenever some family at or
before the first presentable family has the graphics bit. When only family
index 2 can present, it is 2 whatever the graphics flags are. -/
theorem presentationIndex_last_visited (d : DriverDevice) :
    ((presentationIndex d = -1 ∧
          ∀ k, k < d.queueFamilies.length → d.surfaceSupport k = false) ∨
        ∃ k : Nat, presentationIndex d = (k : Int) ∧ isPresentFamily d k = true ∧
          ((∀ j, j < k → isPresentFamily d j = false) ∨
            (∀ j, j < k → isGraphicsFamily d.queueFamilies j = false)) ∧
          (∀ m, k < m → isPresentFamily d m = true →
            ∃ j, j < m ∧ isGraphicsFamily d.queueFamilies j = true)) ∧
      (∀ k : Nat, isPresentFamily d k = true →
        (∀ j, j < k → isPresentFamily d j = false) →
        (∃ j, j ≤ k ∧ isGraphicsFamily d.queueFamilies j = true) →
        presentationIndex d = (k : Int)) ∧
      ((∀ k, isPresentFamily d k = true ↔ k = 2) → presentationIndex d = 2) := by
  refine ⟨?_, ?_, ?_⟩
  · rcases presentationIndex_char d with ⟨h, hall⟩ | h
    · refine Or.inl ⟨h, fun k hk => ?_⟩
      rw [← isPresentFamily_eq d k hk]; exact hall k
    · exact Or.inr h
  · intro k hPk hfirst ⟨j, hjk, hGj⟩
    rcases presentationIndex_char d with ⟨_, hall⟩ | ⟨k', h, hPk', hvisited, _⟩
    · rw [hall k] at hPk; exact absurd hPk (by simp)
    · have h1 : ¬ k' < k := fun hlt => by
        rw [hfirst k' hlt] at hPk'; exact absurd hPk' (by simp)
      have h2 : ¬ k < k' := fun hlt => by
        rcases hvisited with hv | hv
        · rw [hv k hlt] at hPk; exact absurd hPk (by simp)
        · rw [hv j (by omega)] at hGj; exact absurd hGj (by simp)
      have : k' = k := by omega
      rw [h, this]
  · intro honly
    rcases presentationIndex_char d with ⟨_, hall⟩ | ⟨k, h, hPk, _, _⟩
    · have := (honly 2).mpr rfl
      rw [hall 2] at this; exact absurd this (by simp)
    · rw [h, (honly k).mp hPk]; rfl

theorem presentationIndex_last_visited_witness :
    presentationIndex presentOnlyLast = 2 ∧ presentationIndex graphicsTwice = 0 :=
  ⟨(presentationIndex_last_visited presentOnlyLast).2.2 (by
      intro k
      simp only [isPresentFamily, presentOnlyLast, sampleDevice, sampleFamilies,
        List.length_cons, List.length_nil, List.mem_singleton, Bool.and_eq_true,
        decide_eq_true_eq]
      omega),
    (presentationIndex_last_visited graphicsTwice).2.1 0 (by decide) (by intro j hj; omega)
      ⟨0, le_refl 0, by decide⟩⟩

/-- C8, refuted: a discrete GPU that lists the swapchain extension and has no
queue family at all gets both indices `-1` and still the score 2000; it is
placed ahead of a usable integrated GPU of score 1000. -/
theorem enumerate_scores_without_queue_family :
    graphicsIndex discreteWithoutFamilies = -1 ∧
      presentationIndex discreteWithoutFamilies = -1 ∧
      (probePhysicalDevice discreteWithoutFamilies)._score = 2000 ∧
      (probePhysicalDevice integratedDevice)._score = 1000 ∧
      (probePhysicalDevice integratedDevice)._graphicsSupportIndex = 2 ∧
      (probePhysicalDevice integratedDevice)._presentationSupportIndex = 2 ∧
      enumerate insertionSort [integratedDevice, discreteWithoutFamilies] =
        (Except.ok (),
          [probePhysicalDevice discreteWithoutFamilies, probePhysicalDevice integratedDevice]) :=
  ⟨rfl, rfl, rfl, rfl, by decide, by decide, rfl⟩

/-- C8, amended: for every non-empty device list, `enumeratePhysicalDevices`
raises no error whatever queue families the devices have, and the candidate of
every device of the list is in the result. The score given to a device is 0
when its extension list lacks `VK_KHR_swapchain`; otherwise it is 2000 for a
discrete GPU and 1000 for any other class, whether or not the graphics or the
presentation index of the device is `-1`. Every candidate of score 0 is placed
after every candidate of positive score. -/
theorem enumerate_zero_score_last
    (sort : (PhysicalDevice → PhysicalDevice → Bool) → List PhysicalDevice → List PhysicalDevice)
    (hsort : StdSortContract sort) (devices : List DriverDevice) (hne : devices ≠ []) :
    ∃ result, enumerate sort devices = (Except.ok (), result) ∧
      result.Perm (devices.map probePhysicalDevice) ∧
      (∀ d ∈ devices, probePhysicalDevice d ∈ result ∧
        (¬ hasSwapchainExtension d.extensions → (probePhysicalDevice d)._score = 0) ∧
        (hasSwapchainExtension d.extensions →
          d.properties.deviceType = VK_PHYSICAL_DEVICE_TYPE_DISCRETE_GPU →
          (probePhysicalDevice d)._score = 2000) ∧
        (hasSwapchainExtension d.extensions →
          d.properties.deviceType ≠ VK_PHYSICAL_DEVICE_TYPE_DISCRETE_GPU →
          (probePhysicalDevice d)._score = 1000)) ∧
      (∀ c ∈ result, (c._score = 0 ↔ ¬ hasSwapchainExtension c._extensions) ∧
        (c._score = 0 ∨ c._score = 1000 ∨ c._score = 2000)) ∧
      ∀ (i j : Nat) (a b : PhysicalDevice), result[i]? = some a → result[j]? = some b →
        a._score = 0 → 0 < b._score → j < i := by
  have hperm := hsort.perm bestFirst (devices.map probePhysicalDevice) bestFirst_strictWeakOrdering
  refine ⟨_, enumerate_of_ne_nil sort devices hne, hperm, ?_, ?_, ?_⟩
  · intro d hd
    have hscore : (probePhysicalDevice d)._score =
        if supportSwapChain d.extensions = true then
          (if d.properties.deviceType = VK_PHYSICAL_DEVICE_TYPE_DISCRETE_GPU then 2000 else 1000)
        else 0 := by
      rw [probe_score, score_eq]; rfl
    refine ⟨hperm.symm.subset (List.mem_map.mpr ⟨d, hd, rfl⟩), ?_, ?_, ?_⟩
    · intro hno
      rw [hscore, if_neg (fun hs => hno ((supportSwapChain_iff _).mp hs))]
    · intro hs ht
      rw [hscore, if_pos ((supportSwapChain_iff _).mpr hs), if_pos ht]
    · intro hs ht
      rw [hscore, if_pos ((supportSwapChain_iff _).mpr hs), if_neg ht]
  · intro c hc
    obtain ⟨d, _, rfl⟩ := List.mem_map.mp (hperm.subset hc)
    rw [probe_score, score_eq, ← supportSwapChain_iff]
    by_cases hs : supportSwapChain (probePhysicalDevice d)._extensions = true
    · rw [if_pos hs]
      by_cases ht : (probePhysicalDevice d)._properties.deviceType =
          VK_PHYSICAL_DEVICE_TYPE_DISCRETE_GPU
      · rw [if_pos ht]; simp [hs]
      · rw [if_neg ht]; simp [hs]
    · rw [if_neg hs]; simp [hs]
  · intro i j a b ha hb ha0 hbpos
    by_contra hji
    have hp := sorted_descending sort hsort (devices.map probePhysicalDevice)
    obtain ⟨hi, hai⟩ := List.getElem?_eq_some.mp ha
    obtain ⟨hj, hbj⟩ := List.getElem?_eq_some.mp hb
    rcases Nat.lt_or_ge i j with hlt | hge
    · have := List.pairwise_iff_getElem.mp hp i j hi hj hlt
      rw [hai, hbj] at this
      omega
    · have hij : i = j := by omega
      subst hij
      rw [hai] at hbj
      rw [hbj] at ha0
      omega

theorem enumerate_zero_score_last_witness :
    ∃ result,
      enumerate insertionSort
          [discreteWithoutSwapchain, integratedDevice, discreteWithoutFamilies] =
        (Except.ok (), result) ∧
      result.Perm ([discreteWithoutSwapchain, integratedDevice, discreteWithoutFamilies].map
        probePhysicalDevice) ∧
      (∀ d ∈ [discreteWithoutSwapchain, integratedDevice, discreteWithoutFamilies],
        probePhysicalDevice d ∈ result ∧
        (¬ hasSwapchainExtension d.extensions → (probePhysicalDevice d)._score = 0) ∧
        (hasSwapchainExtension d.extensions →
          d.properties.deviceType = VK_PHYSICAL_DEVICE_TYPE_DISCRETE_GPU →
          (probePhysicalDevice d)._score = 2000) ∧
        (hasSwapchainExtension d.extensions →
          d.properties.deviceType ≠ VK_PHYSICAL_DEVICE_TYPE_DISCRETE_GPU →
          (probePhysicalDevice d)._score = 1000)) ∧
      (∀ c ∈ result, (c._score = 0 ↔ ¬ hasSwapchainExtension c._extensions) ∧
        (c._score = 0 ∨ c._score = 1000 ∨ c._score = 2000)) ∧
      ∀ (i j : Nat) (a b : PhysicalDevice), result[i]? = some a → result[j]? = some b →
        a._score = 0 → 0 < b._score → j < i :=
  enumerate_zero_score_last insertionSort insertionSort_contract
    [discreteWithoutSwapchain, integratedDevice, discreteWithoutFamilies] (by simp)

end GlfwVulcanRenderer
